import Mathlib

/-!
Verification of the podcast-automation orchestration logic of
`src/creator_economy_NOTION.py` (class `CreatorEconomyNotionAutomation`).

Text payloads (summary, transcript) are modelled as `List Char`; titles as
`String`.  Remote services (Gemini, the Notion HTTP API, the audio host) are
modelled as explicit oracles supplying the outcome of each remote call, and
the functions under verification additionally return the trace of remote
calls they issue, so that frame/effect properties ("no network I/O on the
skip path") are statable.
-/

/-! ### Transcript chunking (add_to_notion, lines 181-189)

The Python loop `for i in range(0, len(transcript), 2000)` slices the
transcript into consecutive pieces of 2000 characters (the last one may be
shorter).  `sliceEvery k l` models `[l[i:i+k] for i in range(0, len(l), k)]`;
it is defined with an explicit structural fuel (the list length) so that it
computes by `rfl`/`decide`.  The program only ever calls it with k = 2000
(characters per block) and k = 100 (blocks per append batch); for k = 0 the
Python `range` would raise, and the model just returns `[]`. -/

def sliceEveryGo (k : Nat) : Nat → List α → List (List α)
  | _, [] => []
  | 0, _ :: _ => []
  | fuel + 1, a :: l => List.take k (a :: l) :: sliceEveryGo k fuel (List.drop k (a :: l))

def sliceEvery (k : Nat) (l : List α) : List (List α) :=
  sliceEveryGo k l.length l

/-- The chunk list built from a transcript: each chunk becomes one Notion
paragraph block (lines 181-189). -/
def transcriptChunks (transcript : List Char) : List (List Char) :=
  sliceEvery 2000 transcript

/-! ### Summary truncation (add_to_notion, lines 176-178)

Mirrors `if len(summary) > 2000: summary = summary[:1997] + "..."`. -/

def truncateSummary (summary : List Char) : List Char :=
  if 2000 < summary.length then List.take 1997 summary ++ ['.', '.', '.'] else summary

/-! ### Notion blocks and the two-phase writer (add_to_notion, lines 191-257)

A block is modelled by its kind and, for paragraph blocks, the chunk it
carries; the JSON wrapping is irrelevant to the claims.  The Notion HTTP
responses are supplied by oracles: `createRes` is the outcome of the one
`POST /v1/pages` call, `appendRes i` the outcome of the i-th
`PATCH /v1/blocks/../children` call.  Besides the Python function's result
(`page_url`, or an error for a raised exception) the model returns the trace
of remote calls issued, each carrying the number of blocks in its payload. -/

inductive NotionBlock
  | heading
  | divider
  | paragraph (content : List Char)
deriving DecidableEq

def chunkBlocks (transcript : List Char) : List NotionBlock :=
  (transcriptChunks transcript).map NotionBlock.paragraph

/-- STEP 1 payload (lines 198-210): `[header, divider] + chunks[:98]`. -/
def initial_blocks (transcript : List Char) : List NotionBlock :=
  NotionBlock.heading :: NotionBlock.divider :: List.take 98 (chunkBlocks transcript)

/-- STEP 2 (line 237): `remaining = chunks[98:]`. -/
def remainingChunks (transcript : List Char) : List NotionBlock :=
  List.drop 98 (chunkBlocks transcript)

/-- STEP 2 batching (lines 242-243): `remaining[i:i+100]` for `i in range(0, len(remaining), 100)`. -/
def appendBatches (transcript : List Char) : List (List NotionBlock) :=
  sliceEvery 100 (remainingChunks transcript)

/-- One remote call issued by the program, as recorded in a trace. -/
inductive ApiCall
  | download
  | geminiUpload (attempt : Nat)
  | notionCreate (nBlocks : Nat)
  | notionAppend (batch nBlocks : Nat)
deriving DecidableEq

def isCreateCall : ApiCall → Bool
  | ApiCall.notionCreate _ => true
  | _ => false

def isAppendCall : ApiCall → Bool
  | ApiCall.notionAppend _ _ => true
  | _ => false

/-- Number of blocks carried by a Notion create/append request (0 for calls
that carry no block payload). -/
def callBlocks : ApiCall → Nat
  | ApiCall.notionCreate n => n
  | ApiCall.notionAppend _ n => n
  | _ => 0

/-- The append loop (lines 242-252): one PATCH per batch; `raise_for_status`
aborts the remaining batches on the first failing call. -/
def runAppends (appendRes : Nat → Except Unit Unit) :
    List (List NotionBlock) → Nat → Except Unit Unit × List ApiCall
  | [], _ => (Except.ok (), [])
  | b :: rest, i =>
    match appendRes i with
    | Except.error e => (Except.error e, [ApiCall.notionAppend i b.length])
    | Except.ok _ =>
      ((runAppends appendRes rest (i + 1)).1,
        ApiCall.notionAppend i b.length :: (runAppends appendRes rest (i + 1)).2)

/-- Model of `add_to_notion` (lines 165-261).  The create request's
`children` are `initial_blocks transcript`; its scalar properties carry
`truncateSummary summary` and the (best-effort parsed) date, which do not
affect the result or the trace and are therefore not threaded through.
A raised exception is an `Except.error`; line 261 re-raises. -/
def add_to_notion (createRes : Except Unit String) (appendRes : Nat → Except Unit Unit)
    (transcript : List Char) : Except Unit String × List ApiCall :=
  match createRes with
  | Except.error e =>
    (Except.error e, [ApiCall.notionCreate (initial_blocks transcript).length])
  | Except.ok url =>
    (Except.map (fun _ => url) (runAppends appendRes (appendBatches transcript) 0).1,
      ApiCall.notionCreate (initial_blocks transcript).length ::
        (runAppends appendRes (appendBatches transcript) 0).2)

/-! ### Ledger load (load_processed_episodes_from_notion, lines 52-93)

The remote database is modelled by the sequence of responses the successive
`POST .../query` calls produce: `Except.error` for a request on which
`requests.post`/`raise_for_status`/`.json()` raises, `Except.ok` for a page
of results.  The loop stops at the first page with `has_more = false` (and,
in the model, when the response list is exhausted, which corresponds to a
server that keeps its `has_more` promise). -/

inductive RichTextItem
  | wellFormed (content : String)
  | malformed
deriving DecidableEq

/-- One element of `data['results']`.  `noProperties` is a page on which
`page['properties']` raises (caught by the per-record `except: pass`);
`record rts` is a page whose `Episode` property has rich_text array `rts`
(`record []` also covers a missing `Episode` key or missing/empty
`rich_text`, for which the `if episode_prop.get('rich_text')` guard is
falsy). -/
inductive NotionRecord
  | noProperties
  | record (episodeRichText : List RichTextItem)
deriving DecidableEq

/-- Title extraction for one record (lines 77-83): `some t` when
`rich_text[0]['text']['content']` yields `t`, `none` when the record is
skipped (guard falsy, or the indexing raises and the `except: pass` fires). -/
def extractTitle : NotionRecord → Option String
  | NotionRecord.noProperties => none
  | NotionRecord.record [] => none
  | NotionRecord.record (RichTextItem.malformed :: _) => none
  | NotionRecord.record (RichTextItem.wellFormed t :: _) => some t

structure QueryPage where
  results : List NotionRecord
  hasMore : Bool
deriving DecidableEq

/-- The per-page `for page in data.get('results', [])` loop body. -/
def collectTitles (acc : Finset String) (rs : List NotionRecord) : Finset String :=
  rs.foldl (fun a r =>
    match extractTitle r with
    | some t => insert t a
    | none => a) acc

/-- The `while has_more` pagination loop (lines 67-86); an error response
propagates the exception out of the loop. -/
def queryAllPages : List (Except Unit QueryPage) → Finset String → Except Unit (Finset String)
  | [], acc => Except.ok acc
  | Except.error _ :: _, _ => Except.error ()
  | Except.ok p :: rest, acc =>
    let acc2 := collectTitles acc p.results
    if p.hasMore then queryAllPages rest acc2 else Except.ok acc2

/-- Model of `load_processed_episodes_from_notion`: the whole pagination loop
sits in one `try`, and the `except` at lines 91-93 returns `set()` on any
exception. -/
def load_processed_episodes_from_notion (responses : List (Except Unit QueryPage)) :
    Finset String :=
  match queryAllPages responses ∅ with
  | Except.ok s => s
  | Except.error _ => ∅

/-- Modelled from the spec: "it returns whatever has been accumulated so far,
or an empty set if nothing was read" — the set of identities accumulated from
the pages already read when the failure occurs.  Stated only to compare the
code's behaviour against the spec's words. -/
def specAccumulatedSoFar : List (Except Unit QueryPage) → Finset String → Finset String
  | [], acc => acc
  | Except.error _ :: _, acc => acc
  | Except.ok p :: rest, acc =>
    let acc2 := collectTitles acc p.results
    if p.hasMore then specAccumulatedSoFar rest acc2 else acc2

/-- A run where the first query succeeds with one well-formed record and
`has_more = true`, and the second query raises. -/
def midFailureResponses : List (Except Unit QueryPage) :=
  [Except.ok ⟨[NotionRecord.record [RichTextItem.wellFormed "A"]], true⟩,
   Except.error ()]

/-! ### Transcription retry loop (transcribe_with_retry, lines 95-163)

The body of one attempt — upload, the polling loop with its 600-unit
timeout, the FAILED-state check, and the two `generate_content` calls — is
entirely a sequence of remote-service interactions; its outcome is supplied
by the oracle `attemptRes attempt`: `Except.ok (summary, transcript)` when
the attempt reaches the `return` at line 147, `Except.error` when any step
raises.  The loop `for attempt in range(max_retries)` retries on failure
unless the attempt was the last one, in which case it re-raises (line 163).
The model returns the function's result together with the number of
attempts (= uploads) performed.  The first component of the loop state is
the number of loop iterations still allowed (`max_retries - attempt`); the
fuel-exhausted case corresponds to `max_retries = 0`, where Python falls
through the loop and returns `None` — modelled as an error, and never
reached by the program, which always passes `max_retries = 5`. -/

def transcribeAttemptLoop (attemptRes : Nat → Except Unit (List Char × List Char)) :
    Nat → Nat → Except Unit (List Char × List Char) × Nat
  | 0, attempt => (Except.error (), attempt)
  | remaining + 1, attempt =>
    match attemptRes attempt with
    | Except.ok r => (Except.ok r, attempt + 1)
    | Except.error e =>
      if remaining = 0 then (Except.error e, attempt + 1)
      else transcribeAttemptLoop attemptRes remaining (attempt + 1)

def transcribe_with_retry (attemptRes : Nat → Except Unit (List Char × List Char))
    (maxRetries : Nat) : Except Unit (List Char × List Char) × Nat :=
  transcribeAttemptLoop attemptRes maxRetries 0

/-! ### Episode processing (process_episode, lines 263-321)

`FeedEntry` models the feedparser entry: an absent `title` key is
`title = none` (the code substitutes `'Unknown'`); a missing or empty
`enclosures` attribute is `enclosures = []`, likewise `links`.
`FeedLink.isAudioType` models `'audio' in link.get('type', '').lower()`.

`EpisodeWorld` bundles the oracles for the remote interactions of one
episode.  `DownloadOutcome` distinguishes a download failure before the
temporary file is opened (`requests.get` or `raise_for_status` raising, so
no file exists) from a failure during streaming (the file was created and
partially written).  `removeOk` is whether the final `os.remove` succeeds.

`ProcessResult` records the returned boolean, the ledger
(`processed_episodes_cache`) after the call, the trace of remote calls, and
the fate of the temporary file: whether it was created, whether the
`finally` block attempted to remove it, and whether it is still on disk
after the call returns. -/

structure FeedLink where
  isAudioType : Bool
  href : Option String

structure FeedEntry where
  title : Option String
  enclosures : List String
  links : List FeedLink

inductive DownloadOutcome
  | errNoFile
  | errMidStream
  | okDownload
deriving DecidableEq

structure EpisodeWorld where
  download : DownloadOutcome
  attemptRes : Nat → Except Unit (List Char × List Char)
  createRes : Except Unit String
  appendRes : Nat → Except Unit Unit
  removeOk : Bool

/-- The `elif hasattr(entry, 'links')` fallback (lines 280-284): first
audio-typed link wins; its (possibly absent) href is taken as-is. -/
def audioFromLinks : List FeedLink → Option String
  | [] => none
  | l :: rest => if l.isAudioType then l.href else audioFromLinks rest

/-- Audio URL resolution (lines 277-284). -/
def getAudioUrl (e : FeedEntry) : Option String :=
  match e.enclosures with
  | h :: _ => some h
  | [] => audioFromLinks e.links

/-- The uploads performed by `n` executed attempts of the retry loop. -/
def geminiUploads (n : Nat) : List ApiCall :=
  (List.range n).map ApiCall.geminiUpload

/-- Result of the `try` body of `process_episode` (lines 275-314): returned
boolean, ledger after the body, remote calls issued, and whether the
temporary file was created. -/
structure BodyResult where
  ok : Bool
  cache : Finset String
  calls : List ApiCall
  tempCreated : Bool

def processBody (download : DownloadOutcome)
    (attemptRes : Nat → Except Unit (List Char × List Char))
    (createRes : Except Unit String) (appendRes : Nat → Except Unit Unit)
    (cache : Finset String) (title : String) (e : FeedEntry) : BodyResult :=
  match getAudioUrl e with
  | none => ⟨false, cache, [], false⟩
  | some _ =>
    match download with
    | DownloadOutcome.errNoFile => ⟨false, cache, [ApiCall.download], false⟩
    | DownloadOutcome.errMidStream => ⟨false, cache, [ApiCall.download], true⟩
    | DownloadOutcome.okDownload =>
      match transcribe_with_retry attemptRes 5 with
      | (Except.error _, n) =>
        ⟨false, cache, ApiCall.download :: geminiUploads n, true⟩
      | (Except.ok st, n) =>
        match add_to_notion createRes appendRes st.2 with
        | (Except.ok _, cs) =>
          ⟨true, insert title cache, ApiCall.download :: (geminiUploads n ++ cs), true⟩
        | (Except.error _, cs) =>
          ⟨false, cache, ApiCall.download :: (geminiUploads n ++ cs), true⟩

structure ProcessResult where
  ok : Bool
  cache : Finset String
  calls : List ApiCall
  tempCreated : Bool
  removeAttempted : Bool
  tempLeft : Bool

/-- Model of `process_episode`.  The early-return skip path (lines 267-269)
precedes the `try`, so the `finally` never runs there; on every other path
the `finally` (lines 316-321) removes the temporary file when it exists,
swallowing a removal failure. -/
def process_episode (w : EpisodeWorld) (cache : Finset String) (e : FeedEntry) :
    ProcessResult :=
  let title := e.title.getD "Unknown"
  if title ∈ cache then
    ⟨false, cache, [], false, false, false⟩
  else
    let b := processBody w.download w.attemptRes w.createRes w.appendRes cache title e
    ⟨b.ok, b.cache, b.calls, b.tempCreated, b.tempCreated, b.tempCreated && !w.removeOk⟩

/-! ### Concrete sample inputs used by the witness theorems -/

def attemptsFailFourThenOk : Nat → Except Unit (List Char × List Char) :=
  fun i => if i < 4 then Except.error () else Except.ok (['s'], ['t'])

def attemptsAlwaysFail : Nat → Except Unit (List Char × List Char) :=
  fun _ => Except.error ()

def sampleEntry : FeedEntry :=
  { title := some "E", enclosures := ["h"], links := [] }

def sampleEntryUntitled : FeedEntry :=
  { title := none, enclosures := ["h"], links := [] }

def sampleWorldOk : EpisodeWorld :=
  { download := DownloadOutcome.okDownload,
    attemptRes := fun _ => Except.ok (['s'], ['t']),
    createRes := Except.ok "u",
    appendRes := fun _ => Except.ok (),
    removeOk := true }

def sampleWorldNoFile : EpisodeWorld :=
  { download := DownloadOutcome.errNoFile,
    attemptRes := fun _ => Except.error (),
    createRes := Except.error (),
    appendRes := fun _ => Except.error (),
    removeOk := true }

def sampleWorldMidStreamFail : EpisodeWorld :=
  { download := DownloadOutcome.errMidStream,
    attemptRes := fun _ => Except.error (),
    createRes := Except.error (),
    appendRes := fun _ => Except.error (),
    removeOk := true }

theorem sliceEveryGo_nil (k fuel : Nat) : sliceEveryGo k fuel ([] : List α) = [] := by
  cases fuel <;> rfl

theorem sliceEveryGo_congr (k : Nat) (hk : 0 < k) :
    ∀ (f1 f2 : Nat) (l : List α), l.length ≤ f1 → l.length ≤ f2 →
      sliceEveryGo k f1 l = sliceEveryGo k f2 l := by
  intro f1
  induction f1 with
  | zero =>
    intro f2 l h1 _
    have : l = [] := List.eq_nil_of_length_eq_zero (Nat.le_zero.mp h1)
    subst this
    rw [sliceEveryGo_nil, sliceEveryGo_nil]
  | succ f1 ih =>
    intro f2 l h1 h2
    cases l with
    | nil => rw [sliceEveryGo_nil, sliceEveryGo_nil]
    | cons a l =>
      cases f2 with
      | zero => simp at h2
      | succ f2 =>
        show List.take k (a :: l) :: sliceEveryGo k f1 (List.drop k (a :: l)) =
          List.take k (a :: l) :: sliceEveryGo k f2 (List.drop k (a :: l))
        have hd : (List.drop k (a :: l)).length ≤ l.length := by
          rw [List.length_drop, List.length_cons]
          omega
        exact congrArg _ (ih f2 (List.drop k (a :: l)) (le_trans hd (Nat.le_of_succ_le_succ h1))
          (le_trans hd (Nat.le_of_succ_le_succ h2)))

theorem sliceEvery_nil (k : Nat) : sliceEvery k ([] : List α) = [] := rfl

theorem sliceEvery_cons (k : Nat) (hk : 0 < k) (a : α) (l : List α) :
    sliceEvery k (a :: l) =
      List.take k (a :: l) :: sliceEvery k (List.drop k (a :: l)) := by
  show sliceEveryGo k (l.length + 1) (a :: l) = _
  show List.take k (a :: l) :: sliceEveryGo k l.length (List.drop k (a :: l)) = _
  have hd : (List.drop k (a :: l)).length ≤ l.length := by
    rw [List.length_drop, List.length_cons]
    omega
  rw [sliceEveryGo_congr k hk l.length (List.drop k (a :: l)).length _ hd le_rfl]
  rfl

/-- Reassembling all chunks in order reproduces the input (generic form). -/
theorem sliceEvery_flatten_aux (k : Nat) (hk : 0 < k) :
    ∀ (n : Nat) (l : List α), l.length ≤ n → (sliceEvery k l).flatten = l := by
  intro n
  induction n with
  | zero =>
    intro l h
    have : l = [] := List.eq_nil_of_length_eq_zero (Nat.le_zero.mp h)
    subst this; rfl
  | succ n ih =>
    intro l h
    cases l with
    | nil => rfl
    | cons a l =>
      rw [sliceEvery_cons k hk, List.flatten_cons]
      have hd : (List.drop k (a :: l)).length ≤ n := by
        simp only [List.length_cons] at h
        rw [List.length_drop, List.length_cons]
        omega
      rw [ih _ hd]
      exact List.take_append_drop k (a :: l)

theorem sliceEvery_flatten (k : Nat) (hk : 0 < k) (l : List α) :
    (sliceEvery k l).flatten = l :=
  sliceEvery_flatten_aux k hk l.length l le_rfl

/-- Every chunk has length at most k. -/
theorem sliceEvery_chunk_le (k : Nat) (hk : 0 < k) :
    ∀ (n : Nat) (l : List α), l.length ≤ n →
      ∀ c ∈ sliceEvery k l, c.length ≤ k := by
  intro n
  induction n with
  | zero =>
    intro l h c hc
    have : l = [] := List.eq_nil_of_length_eq_zero (Nat.le_zero.mp h)
    subst this; simp [sliceEvery_nil] at hc
  | succ n ih =>
    intro l h c hc
    cases l with
    | nil => simp [sliceEvery_nil] at hc
    | cons a l =>
      rw [sliceEvery_cons k hk] at hc
      rcases List.mem_cons.mp hc with hc' | hc'
      · subst hc'; rw [List.length_take]; omega
      · have hd : (List.drop k (a :: l)).length ≤ n := by
          simp only [List.length_cons] at h
          rw [List.length_drop, List.length_cons]
          omega
        exact ih _ hd c hc'

/-- `sliceEvery` yields `[]` only on the empty list. -/
theorem sliceEvery_eq_nil_iff (k : Nat) (hk : 0 < k) (l : List α) :
    sliceEvery k l = [] ↔ l = [] := by
  cases l with
  | nil => simp [sliceEvery_nil]
  | cons a l => rw [sliceEvery_cons k hk]; simp

/-- Every chunk except possibly the last has length exactly k. -/
theorem sliceEvery_chunk_eq (k : Nat) (hk : 0 < k) :
    ∀ (n : Nat) (l : List α) (i : Nat), l.length ≤ n →
      i + 1 < (sliceEvery k l).length → ((sliceEvery k l).getD i []).length = k := by
  intro n
  induction n with
  | zero =>
    intro l i h hi
    have : l = [] := List.eq_nil_of_length_eq_zero (Nat.le_zero.mp h)
    subst this; simp [sliceEvery_nil] at hi
  | succ n ih =>
    intro l i h hi
    cases l with
    | nil => simp [sliceEvery_nil] at hi
    | cons a l =>
      rw [sliceEvery_cons k hk] at hi ⊢
      cases i with
      | zero =>
        rw [List.getD_cons_zero, List.length_take]
        simp at hi
        have hne : List.drop k (a :: l) ≠ [] := by
          intro hcon
          rw [(sliceEvery_eq_nil_iff k hk _).mpr hcon] at hi
          simp at hi
        have : 0 < (List.drop k (a :: l)).length := List.length_pos.mpr hne
        rw [List.length_drop] at this
        omega
      | succ i =>
        rw [List.getD_cons_succ]
        have hd : (List.drop k (a :: l)).length ≤ n := by
          simp only [List.length_cons] at h
          rw [List.length_drop, List.length_cons]
          omega
        exact ih _ i hd (by simpa using hi)

/-- A length bound on the number of chunks. -/
theorem sliceEvery_length_le (k : Nat) (hk : 0 < k) :
    ∀ (m : Nat) (l : List α), l.length ≤ m * k → (sliceEvery k l).length ≤ m := by
  intro m
  induction m with
  | zero =>
    intro l h
    have : l = [] := List.eq_nil_of_length_eq_zero (by simpa using h)
    subst this; simp [sliceEvery_nil]
  | succ m ih =>
    intro l h
    cases l with
    | nil => simp [sliceEvery_nil]
    | cons a l =>
      rw [sliceEvery_cons k hk]
      have hd : (List.drop k (a :: l)).length ≤ m * k := by
        rw [List.length_drop]
        have : (a :: l).length ≤ (m + 1) * k := h
        have hmk : (m + 1) * k = m * k + k := by ring
        omega
      simpa using ih _ hd

/-! ### Helper lemmas about the models -/

theorem transcribeAttemptLoop_count (attemptRes : Nat → Except Unit (List Char × List Char)) :
    ∀ (remaining attempt : Nat),
      (transcribeAttemptLoop attemptRes remaining attempt).2 ≤ attempt + remaining := by
  intro remaining
  induction remaining with
  | zero => intro attempt; simp [transcribeAttemptLoop]
  | succ n ih =>
    intro attempt
    rw [transcribeAttemptLoop]
    cases hA : attemptRes attempt with
    | ok r => simp
    | error e =>
      simp only
      by_cases hn : n = 0
      · simp [hn]
      · rw [if_neg hn]
        have := ih (attempt + 1)
        omega

theorem runAppends_calls (appendRes : Nat → Except Unit Unit) :
    ∀ (batches : List (List NotionBlock)) (i : Nat) (c : ApiCall),
      c ∈ (runAppends appendRes batches i).2 →
      ∃ j b, b ∈ batches ∧ c = ApiCall.notionAppend j b.length := by
  intro batches
  induction batches with
  | nil => intro i c hc; simp [runAppends] at hc
  | cons b rest ih =>
    intro i c hc
    rw [runAppends] at hc
    cases hA : appendRes i with
    | error e =>
      rw [hA] at hc
      simp at hc
      exact ⟨i, b, by simp, hc⟩
    | ok u =>
      rw [hA] at hc
      rcases List.mem_cons.mp hc with hc' | hc'
      · exact ⟨i, b, by simp, hc'⟩
      · rcases ih (i + 1) c hc' with ⟨j, b', hb', hcb⟩
        exact ⟨j, b', by simp [hb'], hcb⟩

theorem processBody_cache_cases (download : DownloadOutcome)
    (attemptRes : Nat → Except Unit (List Char × List Char))
    (createRes : Except Unit String) (appendRes : Nat → Except Unit Unit)
    (cache : Finset String) (title : String) (e : FeedEntry) :
    ((processBody download attemptRes createRes appendRes cache title e).ok = true ∧
      (processBody download attemptRes createRes appendRes cache title e).cache =
        insert title cache) ∨
    ((processBody download attemptRes createRes appendRes cache title e).ok = false ∧
      (processBody download attemptRes createRes appendRes cache title e).cache = cache) := by
  unfold processBody
  split
  · exact Or.inr ⟨rfl, rfl⟩
  · split
    · exact Or.inr ⟨rfl, rfl⟩
    · exact Or.inr ⟨rfl, rfl⟩
    · split
      · exact Or.inr ⟨rfl, rfl⟩
      · split
        · exact Or.inl ⟨rfl, rfl⟩
        · exact Or.inr ⟨rfl, rfl⟩

theorem process_episode_skip (w : EpisodeWorld) (cache : Finset String) (e : FeedEntry)
    (h : e.title.getD "Unknown" ∈ cache) :
    process_episode w cache e = ⟨false, cache, [], false, false, false⟩ := by
  unfold process_episode
  rw [if_pos h]

theorem process_episode_cache_cases (w : EpisodeWorld) (cache : Finset String) (e : FeedEntry) :
    ((process_episode w cache e).ok = true ∧
      (process_episode w cache e).cache = insert (e.title.getD "Unknown") cache) ∨
    ((process_episode w cache e).ok = false ∧
      (process_episode w cache e).cache = cache) := by
  unfold process_episode
  by_cases h : e.title.getD "Unknown" ∈ cache
  · rw [if_pos h]; exact Or.inr ⟨rfl, rfl⟩
  · rw [if_neg h]
    rcases processBody_cache_cases w.download w.attemptRes w.createRes w.appendRes cache
      (e.title.getD "Unknown") e with ⟨h1, h2⟩ | ⟨h1, h2⟩
    · exact Or.inl ⟨h1, h2⟩
    · exact Or.inr ⟨h1, h2⟩

/-! ### The claims -/

/-- Claim C1: for every transcript, splitting it into fixed-size 2000-character
segments and concatenating the segments in order reproduces the transcript;
the empty transcript yields zero segments; every segment has length at most
2000, and every segment except possibly the last has length exactly 2000.
(The instances L = 0, 1, 1999, 2000, 2001, 500000 are special cases of the
universally quantified statement.) -/
theorem claim_C1_chunk_roundtrip (transcript : List Char) :
    (transcriptChunks transcript).flatten = transcript ∧
    (transcript = [] → transcriptChunks transcript = []) ∧
    (∀ c ∈ transcriptChunks transcript, c.length ≤ 2000) ∧
    (∀ i, i + 1 < (transcriptChunks transcript).length →
      ((transcriptChunks transcript).getD i []).length = 2000) := by
  refine ⟨sliceEvery_flatten 2000 (by omega) transcript, ?_, ?_, ?_⟩
  · intro h; subst h; rfl
  · exact sliceEvery_chunk_le 2000 (by omega) transcript.length transcript le_rfl
  · intro i hi
    exact sliceEvery_chunk_eq 2000 (by omega) transcript.length transcript i le_rfl hi

/-- Claim C1 witness: concrete instances. -/
theorem claim_C1_chunk_roundtrip_witness :
    transcriptChunks [] = [] ∧
    (transcriptChunks ['a', 'b', 'c']).flatten = ['a', 'b', 'c'] ∧
    ((transcriptChunks (List.replicate 2001 'a')).getD 0 []).length = 2000 := by
  have h1 : List.replicate 2001 'a' = 'a' :: List.replicate 2000 'a' := by
    rw [show (2001 : Nat) = 2000 + 1 from rfl, List.replicate_succ]
  have hlen : 0 + 1 < (transcriptChunks (List.replicate 2001 'a')).length := by
    rw [transcriptChunks, h1, sliceEvery_cons 2000 (by omega), List.length_cons]
    have h2 : List.drop 2000 ('a' :: List.replicate 2000 'a') ≠ [] := by
      rw [← h1]
      intro hcon
      have hc := congrArg List.length hcon
      rw [List.length_drop, List.length_replicate] at hc
      simp at hc
    have h3 : sliceEvery 2000 (List.drop 2000 ('a' :: List.replicate 2000 'a')) ≠ [] := by
      rw [Ne, sliceEvery_eq_nil_iff 2000 (by omega)]
      exact h2
    have h4 := List.length_pos.mpr h3
    omega
  exact ⟨(claim_C1_chunk_roundtrip []).2.1 rfl,
    (claim_C1_chunk_roundtrip ['a', 'b', 'c']).1,
    (claim_C1_chunk_roundtrip (List.replicate 2001 'a')).2.2.2 0 hlen⟩

/-- Claim C5: a summary longer than 2000 characters is persisted as its first
1997 characters followed by the 3-character marker "...", for a total length
of exactly 2000. -/
theorem claim_C5_summary_truncation (summary : List Char) (h : 2000 < summary.length) :
    truncateSummary summary = List.take 1997 summary ++ ['.', '.', '.'] ∧
    (truncateSummary summary).length = 2000 := by
  constructor
  · rw [truncateSummary, if_pos h]
  · rw [truncateSummary, if_pos h, List.length_append, List.length_take,
      Nat.min_eq_left (by omega)]
    decide

/-- Claim C5 witness: a summary of length 2500 is truncated to exactly 2000
characters including the marker. -/
theorem claim_C5_summary_truncation_witness :
    (truncateSummary (List.replicate 2500 'a')).length = 2000 :=
  (claim_C5_summary_truncation (List.replicate 2500 'a')
    (by rw [List.length_replicate]; omega)).2

theorem queryAllPages_error_of_pending (post : List (Except Unit QueryPage)) :
    ∀ (pre : List (Except Unit QueryPage)) (acc : Finset String),
      (∀ q ∈ pre, ∃ p, q = Except.ok p ∧ p.hasMore = true) →
      queryAllPages (pre ++ Except.error () :: post) acc = Except.error () := by
  intro pre
  induction pre with
  | nil => intro acc _; rfl
  | cons q rest ih =>
    intro acc hq
    rcases hq q (by simp) with ⟨p, hqp, hmore⟩
    subst hqp
    rw [List.cons_append, queryAllPages, hmore, if_pos rfl]
    exact ih _ (fun q' hq' => hq q' (by simp [hq']))

/-- Claim C2, amended: the ledger load never raises and silently skips
records with an absent or malformed identity field, but on a failure during
pagination it returns the EMPTY set — it discards the identities accumulated
from pages already read, rather than returning them. -/
theorem claim_C2_load_error_handling (pre post : List (Except Unit QueryPage))
    (acc : Finset String) (r : NotionRecord) (rs1 rs2 : List NotionRecord) :
    ((∀ q ∈ pre, ∃ p, q = Except.ok p ∧ p.hasMore = true) →
      load_processed_episodes_from_notion (pre ++ Except.error () :: post) = ∅) ∧
    (extractTitle r = none →
      collectTitles acc (rs1 ++ r :: rs2) = collectTitles acc (rs1 ++ rs2)) ∧
    (load_processed_episodes_from_notion pre = ∅ ∨
      queryAllPages pre ∅ = Except.ok (load_processed_episodes_from_notion pre)) := by
  refine ⟨?_, ?_, ?_⟩
  · intro hq
    rw [load_processed_episodes_from_notion, queryAllPages_error_of_pending post pre ∅ hq]
  · intro hr
    rw [collectTitles, collectTitles, List.foldl_append, List.foldl_append,
      List.foldl_cons, hr]
  · cases hQ : queryAllPages pre ∅ with
    | error e => left; rw [load_processed_episodes_from_notion, hQ]
    | ok s => right; rw [load_processed_episodes_from_notion, hQ]

/-- Claim C2 witness: a concrete failing pagination returns the empty set,
and a record whose identity extraction fails is skipped without effect. -/
theorem claim_C2_load_error_handling_witness :
    load_processed_episodes_from_notion midFailureResponses = ∅ ∧
    collectTitles ∅ ([] ++ NotionRecord.noProperties :: []) = collectTitles ∅ ([] ++ []) := by
  have h := claim_C2_load_error_handling
    [Except.ok ⟨[NotionRecord.record [RichTextItem.wellFormed "A"]], true⟩] []
    ∅ NotionRecord.noProperties [] []
  refine ⟨h.1 ?_, h.2.1 rfl⟩
  intro q hq
  rw [List.mem_singleton] at hq
  exact ⟨_, hq, rfl⟩

/-- Claim C2 counterexample: the load, as the claim states it, should return
the identities accumulated from pages already read ({"A"} here), but the
code's `except` clause returns `set()`: on a failure in the second query the
whole accumulation is discarded. -/
theorem claim_C2_load_error_handling_counterexample :
    load_processed_episodes_from_notion midFailureResponses = ∅ ∧
    specAccumulatedSoFar midFailureResponses ∅ = {"A"} ∧
    load_processed_episodes_from_notion midFailureResponses ≠
      specAccumulatedSoFar midFailureResponses ∅ := by
  refine ⟨by decide, by decide, by decide⟩

/-- Claim C4: with attempts 0-3 failing and attempt 4 succeeding,
`transcribe_with_retry` performs exactly 5 attempts (uploads) and returns the
5th attempt's result; with attempts 0-4 all failing it raises after the 5th
attempt; and it never performs more than 5 attempts. -/
theorem claim_C4_retry_bounds (attemptRes : Nat → Except Unit (List Char × List Char))
    (r : List Char × List Char) :
    ((∀ i, i < 4 → attemptRes i = Except.error ()) → attemptRes 4 = Except.ok r →
      transcribe_with_retry attemptRes 5 = (Except.ok r, 5)) ∧
    ((∀ i, i < 5 → attemptRes i = Except.error ()) →
      transcribe_with_retry attemptRes 5 = (Except.error (), 5)) ∧
    (transcribe_with_retry attemptRes 5).2 ≤ 5 := by
  refine ⟨?_, ?_, ?_⟩
  · intro h h4
    show transcribeAttemptLoop attemptRes 5 0 = (Except.ok r, 5)
    simp [transcribeAttemptLoop, h 0 (by omega), h 1 (by omega), h 2 (by omega),
      h 3 (by omega), h4]
  · intro h
    show transcribeAttemptLoop attemptRes 5 0 = (Except.error (), 5)
    simp [transcribeAttemptLoop, h 0 (by omega), h 1 (by omega), h 2 (by omega),
      h 3 (by omega), h 4 (by omega)]
  · exact transcribeAttemptLoop_count attemptRes 5 0

/-- Claim C4 witness: concrete attempt sequences. -/
theorem claim_C4_retry_bounds_witness :
    transcribe_with_retry attemptsFailFourThenOk 5 = (Except.ok (['s'], ['t']), 5) ∧
    transcribe_with_retry attemptsAlwaysFail 5 = (Except.error (), 5) := by
  constructor
  · exact (claim_C4_retry_bounds attemptsFailFourThenOk (['s'], ['t'])).1
      (fun i hi => by simp [attemptsFailFourThenOk, hi])
      (by simp [attemptsFailFourThenOk])
  · exact (claim_C4_retry_bounds attemptsAlwaysFail (['s'], ['t'])).2.1
      (fun i _ => rfl)

/-- Claim C3: the create request carries at most 100 blocks in total (one
header block, one divider block, and at most 98 leading transcript
segments), and every append request carries at most 100 blocks — for every
transcript and every outcome of the remote calls. -/
theorem claim_C3_block_limits (createRes : Except Unit String)
    (appendRes : Nat → Except Unit Unit) (transcript : List Char) :
    (initial_blocks transcript).length ≤ 100 ∧
    (∃ segs, initial_blocks transcript =
      NotionBlock.heading :: NotionBlock.divider :: segs ∧ segs.length ≤ 98) ∧
    (∀ c ∈ (add_to_notion createRes appendRes transcript).2, callBlocks c ≤ 100) := by
  have hinit : (initial_blocks transcript).length ≤ 100 := by
    rw [initial_blocks, List.length_cons, List.length_cons, List.length_take]
    omega
  refine ⟨hinit,
    ⟨List.take 98 (chunkBlocks transcript), rfl, by rw [List.length_take]; omega⟩, ?_⟩
  intro c hc
  have hbatch : ∀ b ∈ appendBatches transcript, b.length ≤ 100 :=
    sliceEvery_chunk_le 100 (by omega) (remainingChunks transcript).length
      (remainingChunks transcript) le_rfl
  cases createRes with
  | error e =>
    rw [add_to_notion] at hc
    rw [List.mem_singleton] at hc
    subst hc
    exact hinit
  | ok url =>
    rw [add_to_notion] at hc
    rcases List.mem_cons.mp hc with hc' | hc'
    · subst hc'; exact hinit
    · rcases runAppends_calls appendRes (appendBatches transcript) 0 c hc' with
        ⟨j, b, hb, hcb⟩
      subst hcb
      exact hbatch b hb

/-- Claim C3 witness: concrete instance with a one-character transcript. -/
theorem claim_C3_block_limits_witness :
    (initial_blocks ['x']).length ≤ 100 ∧
    callBlocks (ApiCall.notionCreate (initial_blocks ['x']).length) ≤ 100 := by
  refine ⟨(claim_C3_block_limits (Except.ok "u") (fun _ => Except.ok ()) ['x']).1, ?_⟩
  exact (claim_C3_block_limits (Except.ok "u") (fun _ => Except.ok ()) ['x']).2.2
    (ApiCall.notionCreate (initial_blocks ['x']).length) (by decide)

/-- Claim C10: when the transcript splits into at most 98 segments
(length at most 196000), persistence issues exactly one create request and
zero append requests; and in general the append batches carry exactly the
segments beyond the first 98, in order. -/
theorem claim_C10_single_create (createRes : Except Unit String)
    (appendRes : Nat → Except Unit Unit) (transcript : List Char) :
    (transcript.length ≤ 196000 →
      ((add_to_notion createRes appendRes transcript).2.countP isCreateCall = 1 ∧
       (add_to_notion createRes appendRes transcript).2.countP isAppendCall = 0)) ∧
    (appendBatches transcript).flatten = List.drop 98 (chunkBlocks transcript) := by
  constructor
  · intro hlen
    have hchunks : (transcriptChunks transcript).length ≤ 98 :=
      sliceEvery_length_le 2000 (by omega) 98 transcript (by omega)
    have hrem : remainingChunks transcript = [] := by
      rw [remainingChunks]
      apply List.drop_eq_nil_of_le
      rw [chunkBlocks, List.length_map]
      exact hchunks
    have hbat : appendBatches transcript = [] := by
      rw [appendBatches, hrem]; rfl
    cases createRes with
    | error e =>
      simp [add_to_notion, List.countP_cons, List.countP_nil, isCreateCall, isAppendCall]
    | ok url =>
      rw [add_to_notion, hbat]
      simp [runAppends, List.countP_cons, List.countP_nil, isCreateCall, isAppendCall]
  · rw [show List.drop 98 (chunkBlocks transcript) = remainingChunks transcript from rfl]
    exact sliceEvery_flatten 100 (by omega) (remainingChunks transcript)

/-- Claim C10 witness: a one-character transcript yields one create call and
no append calls. -/
theorem claim_C10_single_create_witness :
    (add_to_notion (Except.ok "u") (fun _ => Except.ok ()) ['x']).2.countP isCreateCall = 1 ∧
    (add_to_notion (Except.ok "u") (fun _ => Except.ok ()) ['x']).2.countP isAppendCall = 0 :=
  (claim_C10_single_create (Except.ok "u") (fun _ => Except.ok ()) ['x']).1 (by decide)

/-- Claim C6: an entry whose identity (title) is already in the ledger is
skipped: `process_episode` returns false, issues no remote calls at all (no
download, no transcription upload, no document-store write), and leaves the
ledger unchanged. -/
theorem claim_C6_skip_no_network (w : EpisodeWorld) (cache : Finset String) (e : FeedEntry)
    (h : e.title.getD "Unknown" ∈ cache) :
    (process_episode w cache e).ok = false ∧
    (process_episode w cache e).calls = [] ∧
    (process_episode w cache e).cache = cache := by
  rw [process_episode_skip w cache e h]
  exact ⟨rfl, rfl, rfl⟩

/-- Claim C6 witness: a concrete already-processed entry. -/
theorem claim_C6_skip_no_network_witness :
    (process_episode sampleWorldOk {"E"} sampleEntry).ok = false ∧
    (process_episode sampleWorldOk {"E"} sampleEntry).calls = [] ∧
    (process_episode sampleWorldOk {"E"} sampleEntry).cache = {"E"} :=
  claim_C6_skip_no_network sampleWorldOk {"E"} sampleEntry (by decide)

/-- Claim C7: the identity is added to the ledger only on full success: when
`process_episode` returns false (for any reason, including a persistence
failure after a successful create) the ledger is unchanged, and when it
returns true the ledger is exactly the old ledger plus the identity. -/
theorem claim_C7_ledger_after_success (w : EpisodeWorld) (cache : Finset String)
    (e : FeedEntry) :
    ((process_episode w cache e).ok = false → (process_episode w cache e).cache = cache) ∧
    ((process_episode w cache e).ok = true →
      (process_episode w cache e).cache = insert (e.title.getD "Unknown") cache) := by
  rcases process_episode_cache_cases w cache e with ⟨h1, h2⟩ | ⟨h1, h2⟩
  · refine ⟨fun hf => ?_, fun _ => h2⟩
    rw [hf] at h1
    exact Bool.noConfusion h1
  · refine ⟨fun _ => h2, fun ht => ?_⟩
    rw [ht] at h1
    exact Bool.noConfusion h1

/-- Claim C7 witness: a failing episode (download failure) leaves the ledger
unchanged. -/
theorem claim_C7_ledger_after_success_witness :
    (process_episode sampleWorldNoFile ∅ sampleEntry).cache = ∅ :=
  (claim_C7_ledger_after_success sampleWorldNoFile ∅ sampleEntry).1 (by decide)

/-- Claim C8: on every exit path, if the temporary file was created its
removal is attempted before the call returns (and succeeds whenever the
removal oracle succeeds), and the outcome of the call — returned boolean,
ledger, and remote calls — does not depend on whether the removal succeeds. -/
theorem claim_C8_temp_cleanup (w : EpisodeWorld) (cache : Finset String) (e : FeedEntry)
    (b : Bool) :
    ((process_episode w cache e).tempCreated = true →
      (process_episode w cache e).removeAttempted = true) ∧
    (w.removeOk = true → (process_episode w cache e).tempLeft = false) ∧
    (process_episode { w with removeOk := b } cache e).ok = (process_episode w cache e).ok ∧
    (process_episode { w with removeOk := b } cache e).cache =
      (process_episode w cache e).cache ∧
    (process_episode { w with removeOk := b } cache e).calls =
      (process_episode w cache e).calls := by
  simp only [process_episode]
  by_cases h : e.title.getD "Unknown" ∈ cache
  · rw [if_pos h, if_pos h]
    exact ⟨fun hc => Bool.noConfusion hc, fun _ => rfl, rfl, rfl, rfl⟩
  · rw [if_neg h, if_neg h]
    refine ⟨fun hc => hc, fun hok => ?_, rfl, rfl, rfl⟩
    show ((processBody w.download w.attemptRes w.createRes w.appendRes cache
      (e.title.getD "Unknown") e).tempCreated && !w.removeOk) = false
    rw [hok]
    simp

/-- Claim C8 witness: a download that fails mid-stream creates the file; the
cleanup runs and the file is gone. -/
theorem claim_C8_temp_cleanup_witness :
    (process_episode sampleWorldMidStreamFail ∅ sampleEntry).removeAttempted = true ∧
    (process_episode sampleWorldMidStreamFail ∅ sampleEntry).tempLeft = false :=
  ⟨(claim_C8_temp_cleanup sampleWorldMidStreamFail ∅ sampleEntry true).1 (by decide),
    (claim_C8_temp_cleanup sampleWorldMidStreamFail ∅ sampleEntry true).2.1 (by decide)⟩

/-- Claim C9 (implicit): an entry without a title gets the default identity
"Unknown"; once a titleless episode has been successfully persisted, every
subsequent titleless entry is skipped as already processed (no calls, no
ledger change), whatever its other fields and whatever the remote world. -/
theorem claim_C9_unknown_identity (w1 w2 : EpisodeWorld) (cache : Finset String)
    (e1 e2 : FeedEntry) (h1 : e1.title = none) (h2 : e2.title = none)
    (hs : (process_episode w1 cache e1).ok = true) :
    (process_episode w2 (process_episode w1 cache e1).cache e2).ok = false ∧
    (process_episode w2 (process_episode w1 cache e1).cache e2).calls = [] ∧
    (process_episode w2 (process_episode w1 cache e1).cache e2).cache =
      (process_episode w1 cache e1).cache := by
  have hcache : (process_episode w1 cache e1).cache = insert "Unknown" cache := by
    rcases process_episode_cache_cases w1 cache e1 with ⟨_, hc⟩ | ⟨hf, _⟩
    · rw [hc, h1]; rfl
    · rw [hs] at hf; exact Bool.noConfusion hf
  have hmem : e2.title.getD "Unknown" ∈ (process_episode w1 cache e1).cache := by
    rw [hcache, h2]
    exact Finset.mem_insert_self "Unknown" cache
  rw [process_episode_skip w2 _ e2 hmem]
  exact ⟨rfl, rfl, rfl⟩

/-- Claim C9 witness: a successful titleless episode, then a second titleless
entry is skipped. -/
theorem claim_C9_unknown_identity_witness :
    (process_episode sampleWorldOk
      (process_episode sampleWorldOk ∅ sampleEntryUntitled).cache sampleEntryUntitled).ok
        = false ∧
    (process_episode sampleWorldOk
      (process_episode sampleWorldOk ∅ sampleEntryUntitled).cache sampleEntryUntitled).calls
        = [] :=
  ⟨(claim_C9_unknown_identity sampleWorldOk sampleWorldOk ∅ sampleEntryUntitled
      sampleEntryUntitled rfl rfl (by decide)).1,
   (claim_C9_unknown_identity sampleWorldOk sampleWorldOk ∅ sampleEntryUntitled
      sampleEntryUntitled rfl rfl (by decide)).2.1⟩
